import Mathlib

/-!
Verification of the meniscus bulk HTTP client (gojek/meniscus).

This file shallowly embeds the sequential data path of `client.go` in Lean:
pure Go functions become Lean functions; the concurrent plumbing (channels,
goroutine scheduling, the `select` races against the stop signal and the
context deadline) is made explicit as parameters — a schedule function for
each `select` race and an event trace for the multiplexer loop — so that
every reachable interleaving corresponds to some choice of these parameters.

Machine-level conventions of the embedding:
- Go `error` values that occur in this code are one of: an error produced by
  the injected `HTTPClient` adapter, or one of the engine's own error values
  (`ErrNoRequests`, `ErrRequestIgnored`, the `fmt.Errorf` wrappers, the
  `errors.New` sentinels).  These are modelled by the sum `GoError`.
- A nullable Go pointer/interface is an `Option`.
- `ctx.Err()` is `Option CtxErr` (`none` = the batch deadline scope is live).
- An HTTP body is `Body`: either a network-backed stream still tied to the
  batch deadline scope (`.net`), or the in-memory buffer that
  `ioutil.NopCloser(bytes.NewReader(bs))` produces (`.mem`).
-/

namespace Meniscus

/-- Result of `ctx.Err()` when it is non-nil: `context.Canceled` or
`context.DeadlineExceeded`. -/
inductive CtxErr
  | canceled
  | deadlineExceeded
deriving DecidableEq, Repr

/-- A request context: either `context.Background()` or the batch's
`context.WithTimeout` deadline scope created in `Do` (client.go:94). -/
inductive Ctx
  | background
  | batchScope
deriving DecidableEq, Repr

/-- The parts of `http.Request` this code touches: an opaque payload and the
context the request is bound to. -/
structure Request where
  url : String
  ctx : Ctx
deriving DecidableEq, Repr

/-- Model of `req.WithContext(c)`: same request rebound to context `c`. -/
def Request.withContext (r : Request) (c : Ctx) : Request :=
  { r with ctx := c }

/-- An HTTP response body.  `.net bs readErr` is the transport-provided
stream: its full content is `bs`, and `readErr` is a read failure the stream
will report mid-read (`none` if reading to the end succeeds while the scope
is live).  `.mem bs` is the in-memory replacement built by
`ioutil.NopCloser(bytes.NewReader(bs))` (client.go:322). -/
inductive Body
  | net (bytes : List Nat) (readErr : Option String)
  | mem (bytes : List Nat)
deriving DecidableEq, Repr

/-- The full content of a body, regardless of backing. -/
def Body.bytes : Body → List Nat
  | .net bs _ => bs
  | .mem bs => bs

/-- Model of `ioutil.ReadAll` on a body.  A network-backed body whose request context
has ended fails with the context error (Go's `http` transport aborts reads
on a dead context); an in-memory body always yields its bytes. -/
def readAll (scopeEnded : Bool) : Body → Except String (List Nat)
  | .mem bs => .ok bs
  | .net bs readErr =>
    if scopeEnded then .error "context canceled"
    else
      match readErr with
      | some e => .error e
      | none => .ok bs

/-- The parts of `http.Response` that `parseResponse` copies
(client.go:324-330). -/
structure Response where
  body : Body
  statusCode : Nat
  status : String
  header : List (String × String)
  request : Option Request
deriving DecidableEq, Repr

/-- The engine's error values (kinds, carrying the formatted message where
the source builds one with `fmt.Errorf`/`errors.New`). -/
inductive BulkError
  | noRequests
  | requestIgnored
  | transportError (msg : String)
  | noResponseReceived
  | bodyReadError (msg : String)
deriving DecidableEq, Repr

/-- A Go `error` value occurring in this program: either an error returned by
the injected `HTTPClient` adapter, or one of the engine's own errors. -/
inductive GoError
  | adapter (msg : String)
  | bulk (e : BulkError)
deriving DecidableEq, Repr

/-- Model of `err.Error()`: the message of a Go error value. -/
def BulkError.message : BulkError → String
  | .noRequests => "no requests provided"
  | .requestIgnored => "request ignored"
  | .transportError m => m
  | .noResponseReceived => "no response received"
  | .bodyReadError m => m

/-- Model of `err.Error()` for the modelled Go error values. -/
def GoError.message : GoError → String
  | .adapter m => m
  | .bulk e => e.message

/-- Embedding of `requestParcel` (client.go:43-46). -/
structure RequestParcel where
  request : Request
  index : Nat
deriving DecidableEq, Repr

/-- Embedding of `roundTripParcel` (client.go:48-53). -/
structure RoundTripParcel where
  response : Option Response
  request : Option Request
  err : Option GoError
  index : Nat
deriving DecidableEq, Repr

/-- Embedding of `RoundTrip` (client.go:31-35): the batch ledger. -/
structure RoundTrip where
  requests : List Request
  responses : List (Option Response)
  errors : List (Option GoError)
deriving DecidableEq, Repr

/-- The condition tested at client.go:305:
`ctx.Err() == context.Canceled || ctx.Err() == context.DeadlineExceeded`. -/
def scopeEnded (ctxErr : Option CtxErr) : Bool :=
  ctxErr = some CtxErr.canceled || ctxErr = some CtxErr.deadlineExceeded

/-- Output of `parseResponse`: the produced parcel, plus whether the deferred
`res.response.Body.Close()` (client.go:299-303) ran on a present response. -/
structure ParseOut where
  out : RoundTripParcel
  originalBodyClosed : Bool
deriving DecidableEq, Repr

/-- Embedding of `parseResponse` (client.go:298-339).  Classifies one raw result:
deadline-scope errors become `ErrRequestIgnored`; other adapter errors are
wrapped as "http client error: ..."; a nil response with nil error becomes
"no response received"; a body-read failure is wrapped as "error while
reading response body: ..."; otherwise the body is rebuffered in memory and
the response rebuilt on a background-context request.  The deferred close of
the original body is reported in `originalBodyClosed`. -/
def parseResponse (ctxErr : Option CtxErr) (res : RoundTripParcel) : ParseOut :=
  let closed := res.response.isSome
  if res.err.isSome && scopeEnded ctxErr then
    ⟨{ response := none, request := none,
       err := some (GoError.bulk BulkError.requestIgnored), index := res.index }, closed⟩
  else
    match res.err with
    | some e =>
      ⟨{ response := none, request := none,
         err := some (GoError.bulk (BulkError.transportError
           ("http client error: " ++ e.message))), index := res.index }, closed⟩
    | none =>
      match res.response with
      | none =>
        ⟨{ response := none, request := none,
           err := some (GoError.bulk BulkError.noResponseReceived),
           index := res.index }, closed⟩
      | some resp =>
        match readAll (scopeEnded ctxErr) resp.body with
        | .error m =>
          ⟨{ response := none, request := none,
             err := some (GoError.bulk (BulkError.bodyReadError
               ("error while reading response body: " ++ m))), index := res.index }, closed⟩
        | .ok bs =>
          let newResponse : Response :=
            { body := Body.mem bs
              statusCode := resp.statusCode
              status := resp.status
              header := resp.header
              request := res.request.map (fun rq => rq.withContext Ctx.background) }
          ⟨{ response := some newResponse, request := none,
             err := none, index := res.index }, closed⟩

/-- Embedding of `updateResponseForIndex` (client.go:183-187): store the response at
`index` and null the error slot. -/
def RoundTrip.updateResponseForIndex (r : RoundTrip) (response : Option Response)
    (index : Nat) : RoundTrip :=
  { r with responses := r.responses.set index response,
           errors := r.errors.set index none }

/-- Embedding of `updateErrorForIndex` (client.go:189-193): store the error at `index` and
null the response slot. -/
def RoundTrip.updateErrorForIndex (r : RoundTrip) (err : Option GoError)
    (index : Nat) : RoundTrip :=
  { r with errors := r.errors.set index err,
           responses := r.responses.set index none }

/-- The loop body of `addRequestIgnoredErrors` (client.go:175-181), walking
`responses` and `errors` in step.  In `Do` both lists have equal length; on a
longer `errors` list the Go loop leaves the tail untouched, and on a shorter
one it would panic (that case never arises — the model returns the written
part). -/
def backfillIgnored : List (Option Response) → List (Option GoError) →
    List (Option GoError)
  | [], errs => errs
  | _ :: _, [] => []
  | r :: rs, e :: es =>
    (if r = none && e = none then some (GoError.bulk BulkError.requestIgnored) else e)
      :: backfillIgnored rs es

/-- Embedding of `addRequestIgnoredErrors` (client.go:175-181): every slot where both the
response and the error are nil receives `ErrRequestIgnored`. -/
def RoundTrip.addRequestIgnoredErrors (r : RoundTrip) : RoundTrip :=
  { r with errors := backfillIgnored r.responses r.errors }

/-- The loop body of `completionListener` (client.go:138-144): an erroring
parcel is merged via `updateErrorForIndex`, any other via
`updateResponseForIndex`. -/
def mergeParcel (acc : RoundTrip) (resParcel : RoundTripParcel) : RoundTrip :=
  if resParcel.err.isSome then
    acc.updateErrorForIndex resParcel.err resParcel.index
  else
    acc.updateResponseForIndex resParcel.response resParcel.index

/-- Embedding of `completionListener` (client.go:136-148): receive the collected parcels
from the multiplexer (passed here explicitly), merge each into the ledger,
then backfill ignored slots. -/
def completionListener (bulkRequest : RoundTrip)
    (collected : List RoundTripParcel) : RoundTrip :=
  (collected.foldl mergeParcel bulkRequest).addRequestIgnoredErrors

/-- Loop of `publishAllRequests` (client.go:118-134), from position `i` of the
request list.  `sched i = true` means the push of request `i` into
`requestList` won the select race at client.go:126-130; `false` means the
stop signal won and the loop breaks. -/
def publishFrom (sched : Nat → Bool) : List Request → Nat → List RequestParcel
  | [], _ => []
  | req :: rest, i =>
    if sched i then ⟨req, i⟩ :: publishFrom sched rest (i + 1) else []

/-- Embedding of `publishAllRequests` (client.go:118-134): the sequence of request parcels
actually pushed into the Fire Stage's input queue, under select schedule
`sched`. -/
def publishAllRequests (r : RoundTrip) (sched : Nat → Bool) : List RequestParcel :=
  publishFrom sched r.requests 0

/-- One event observed by the `select` in `responseMux`
(client.go:157-168): the deadline scope ended, a parcel was received, or the
`processedResponses` channel was closed. -/
inductive MuxEvent
  | ctxDone
  | recv (p : RoundTripParcel)
  | closed
deriving DecidableEq, Repr

/-- The loop of `responseMux` (client.go:150-173) with explicit state:
`done` results so far, accumulated `arrayOfResponses`, and the remaining
event trace.  Returns `some acc` when the loop breaks and sends `acc` on
`collectResponses`; `none` when the trace is exhausted while the loop still
waits (delivery has not happened). -/
def muxLoop (n : Nat) : Nat → List RoundTripParcel → List MuxEvent →
    Option (List RoundTripParcel)
  | done, acc, evs =>
    if n ≤ done then some acc
    else
      match evs with
      | [] => none
      | MuxEvent.ctxDone :: _ => some acc
      | MuxEvent.closed :: _ => some acc
      | MuxEvent.recv p :: rest => muxLoop n (done + 1) (acc ++ [p]) rest

/-- Embedding of `responseMux` (client.go:150-173): collect up to `len requests` parcels,
stopping early when the deadline scope ends or the input channel closes, and
deliver the accumulated list once. -/
def responseMux (bulkRequest : RoundTrip) (evs : List MuxEvent) :
    Option (List RoundTripParcel) :=
  muxLoop bulkRequest.requests.length 0 [] evs

/-- Result of `Do` (client.go:78-107): the mutated batch, the returned
response slice (`none` models the nil slice of the empty-batch return), the
returned error slice, and whether the pipeline stages were started (the two
`go` statements at client.go:101-102). -/
structure DoOutcome where
  finalState : RoundTrip
  responses : Option (List (Option Response))
  errors : List (Option GoError)
  stagesStarted : Bool
deriving DecidableEq, Repr

/-- Embedding of `Do` (client.go:78-107).  The concurrency is summarised by `collected`,
the parcel list the multiplexer delivers on `collectResponses`: `Do`
validates the batch, allocates the result arrays, rebinds every request to
the deadline scope, starts the pipeline, and runs `completionListener` on
the delivered parcels. -/
def Do (bulkRequest : RoundTrip) (collected : List RoundTripParcel) : DoOutcome :=
  let noOfRequests := bulkRequest.requests.length
  if noOfRequests = 0 then
    ⟨bulkRequest, none, [some (GoError.bulk BulkError.noRequests)], false⟩
  else
    let rt0 : RoundTrip :=
      { bulkRequest with
          responses := List.replicate noOfRequests none
          errors := List.replicate noOfRequests none
          requests := bulkRequest.requests.map
            (fun req => req.withContext Ctx.batchScope) }
    let rt1 := completionListener rt0 collected
    ⟨rt1, some rt1.responses, rt1.errors, true⟩

/-- The observable state of a transport body for the Fire Stage's shutdown
path: how many of its `size` bytes have been consumed, and whether it has
been closed. -/
structure BodyState where
  size : Nat
  pos : Nat
  closed : Bool
deriving DecidableEq, Repr

/-- Model of `Body.Close()` on a transport body. -/
def closeBody (b : BodyState) : BodyState :=
  { b with closed := true }

/-- Model of `io.Copy(ioutil.Discard, body)`: read the stream to its end. -/
def drainBody (b : BodyState) : BodyState :=
  { b with pos := b.size }

/-- What `fireRequests` in `client.go` (lines 249-258) does to an obtained
response body when the push into `receivedResponses` loses the race to the
stop signal: client.go:255 runs only `result.response.Body.Close()`. -/
def fireStopCleanup (b : BodyState) : BodyState :=
  closeBody b

/-- What the `fireRequests` variant in the repository's
`bulkhttpclient`/`meniscus` refactor (src/unnamed/part_002:436-456) does in
the same situation: `io.Copy(ioutil.Discard, result.response.Body)` then
`result.response.Body.Close()`. -/
def fireStopCleanupDraining (b : BodyState) : BodyState :=
  closeBody (drainBody b)

/-- A body state is fully drained when every byte has been consumed. -/
def BodyState.drained (b : BodyState) : Bool :=
  b.size ≤ b.pos

/-! ## Theorems -/

/-- Lemma: `scopeEnded` holds exactly on `context.Canceled` and
`context.DeadlineExceeded`. -/
theorem scopeEnded_iff (c : Option CtxErr) :
    scopeEnded c = true ↔ (c = some CtxErr.canceled ∨ c = some CtxErr.deadlineExceeded) := by
  simp [scopeEnded]

/-- C2: a raw result carrying a non-nil adapter error is classified
`RequestIgnored` exactly when the batch deadline scope has ended (it expired
or was explicitly cancelled); with the scope still live the error is never
classified `RequestIgnored`. -/
theorem parseResponse_requestIgnored_iff (ctxErr : Option CtxErr)
    (res : RoundTripParcel) (e : GoError) (he : res.err = some e) :
    (parseResponse ctxErr res).out.err = some (GoError.bulk BulkError.requestIgnored) ↔
      (ctxErr = some CtxErr.canceled ∨ ctxErr = some CtxErr.deadlineExceeded) := by
  have hs : res.err.isSome = true := by simp [he]
  by_cases hc : scopeEnded ctxErr = true
  · simp [parseResponse, hs, hc, (scopeEnded_iff ctxErr).mp hc]
  · have hnot : ¬(ctxErr = some CtxErr.canceled ∨ ctxErr = some CtxErr.deadlineExceeded) :=
      fun h => hc ((scopeEnded_iff ctxErr).mpr h)
    simp [parseResponse, hs, hc, he, hnot]

/-- Witness for C2 at a concrete canceled-scope input. -/
theorem parseResponse_requestIgnored_iff_witness :
    (parseResponse (some CtxErr.canceled)
        { response := none, request := none, err := some (GoError.adapter "boom"), index := 0 }).out.err
      = some (GoError.bulk BulkError.requestIgnored) :=
  (parseResponse_requestIgnored_iff (some CtxErr.canceled) _ _ rfl).mpr (Or.inl rfl)

/-- C5: classification precedence after the deadline check — a non-deadline
adapter error becomes a wrapped transport error carrying the underlying
message; else a nil response with nil error becomes "no response received";
else a body-read failure becomes a wrapped body-read error carrying the
underlying message. -/
theorem parseResponse_classification (ctxErr : Option CtxErr) (res : RoundTripParcel) :
    (∀ e : GoError, res.err = some e → scopeEnded ctxErr = false →
      (parseResponse ctxErr res).out.err =
        some (GoError.bulk (BulkError.transportError ("http client error: " ++ e.message)))) ∧
    (res.err = none → res.response = none →
      (parseResponse ctxErr res).out.err = some (GoError.bulk BulkError.noResponseReceived)) ∧
    (∀ (resp : Response) (m : String), res.err = none → res.response = some resp →
      readAll (scopeEnded ctxErr) resp.body = Except.error m →
      (parseResponse ctxErr res).out.err =
        some (GoError.bulk (BulkError.bodyReadError ("error while reading response body: " ++ m)))) := by
  refine ⟨?_, ?_, ?_⟩
  · intro e he hc
    have hs : res.err.isSome = true := by simp [he]
    simp [parseResponse, hs, hc, he]
  · intro he hr
    simp [parseResponse, he, hr]
  · intro resp m he hr hread
    simp [parseResponse, he, hr, hread]

/-- Witness for C5: the three branches at concrete inputs. -/
theorem parseResponse_classification_witness :
    (parseResponse none
        { response := none, request := none, err := some (GoError.adapter "dns fail"), index := 0 }).out.err
      = some (GoError.bulk (BulkError.transportError "http client error: dns fail")) ∧
    (parseResponse none
        { response := none, request := none, err := none, index := 1 }).out.err
      = some (GoError.bulk BulkError.noResponseReceived) ∧
    (parseResponse none
        { response := some { body := Body.net [1, 2] (some "cut"), statusCode := 200,
                             status := "200 OK", header := [], request := none },
          request := none, err := none, index := 2 }).out.err
      = some (GoError.bulk (BulkError.bodyReadError "error while reading response body: cut")) := by
  refine ⟨?_, ?_, ?_⟩
  · exact (parseResponse_classification none
      { response := none, request := none, err := some (GoError.adapter "dns fail"),
        index := 0 }).1 (GoError.adapter "dns fail") rfl rfl
  · exact (parseResponse_classification none
      { response := none, request := none, err := none, index := 1 }).2.1 rfl rfl
  · exact (parseResponse_classification none
      { response := some { body := Body.net [1, 2] (some "cut"), statusCode := 200,
                           status := "200 OK", header := [], request := none },
        request := none, err := none, index := 2 }).2.2
      { body := Body.net [1, 2] (some "cut"), statusCode := 200,
        status := "200 OK", header := [], request := none } "cut" rfl rfl rfl

/-- C4: on the success path (nil adapter error, present response, body read
succeeds) the emitted result holds a response whose body is the in-memory
buffer of exactly the original body's bytes, readable after the deadline
scope has ended, whose request is rebound to the background context, and the
original body was closed. -/
theorem parseResponse_success (ctxErr : Option CtxErr) (res : RoundTripParcel)
    (resp : Response) (rq : Request) (bs : List Nat)
    (herr : res.err = none) (hresp : res.response = some resp)
    (hrq : res.request = some rq)
    (hread : readAll (scopeEnded ctxErr) resp.body = Except.ok bs) :
    ∃ nr : Response,
      (parseResponse ctxErr res).out =
        { response := some nr, request := none, err := none, index := res.index } ∧
      nr.body = Body.mem bs ∧
      bs = resp.body.bytes ∧
      readAll true nr.body = Except.ok resp.body.bytes ∧
      nr.request = some (rq.withContext Ctx.background) ∧
      (parseResponse ctxErr res).originalBodyClosed = true := by
  have hbytes : bs = resp.body.bytes := by
    cases hb : resp.body with
    | mem l => rw [hb] at hread; simpa [readAll, Body.bytes] using hread.symm
    | net l re =>
      rw [hb] at hread
      by_cases hc : scopeEnded ctxErr = true
      · simp [readAll, hc] at hread
      · simp only [readAll, hc, Bool.false_eq_true, if_false] at hread
        cases re with
        | some m => simp at hread
        | none => simpa [Body.bytes] using hread.symm
  refine ⟨{ body := Body.mem bs, statusCode := resp.statusCode, status := resp.status,
            header := resp.header,
            request := some (rq.withContext Ctx.background) }, ?_, rfl, hbytes, ?_, rfl, ?_⟩
  · simp [parseResponse, herr, hresp, hrq, hread]
  · simp [readAll, hbytes]
  · simp [parseResponse, herr, hresp, hrq, hread]

/-- Witness for C4 at a concrete successful raw result. -/
theorem parseResponse_success_witness :
    ∃ nr : Response,
      (parseResponse none
        { response := some { body := Body.net [7, 8, 9] none, statusCode := 200,
                             status := "200 OK", header := [("k", "v")], request := none },
          request := some { url := "http://a", ctx := Ctx.batchScope },
          err := none, index := 3 }).out =
        { response := some nr, request := none, err := none, index := 3 } ∧
      nr.body = Body.mem [7, 8, 9] ∧
      [7, 8, 9] = (Body.net [7, 8, 9] (Option.none)).bytes ∧
      readAll true nr.body = Except.ok (Body.net [7, 8, 9] (Option.none)).bytes ∧
      nr.request = some (Request.withContext { url := "http://a", ctx := Ctx.batchScope } Ctx.background) ∧
      (parseResponse none
        { response := some { body := Body.net [7, 8, 9] none, statusCode := 200,
                             status := "200 OK", header := [("k", "v")], request := none },
          request := some { url := "http://a", ctx := Ctx.batchScope },
          err := none, index := 3 }).originalBodyClosed = true :=
  parseResponse_success none
    { response := some { body := Body.net [7, 8, 9] none, statusCode := 200,
                         status := "200 OK", header := [("k", "v")], request := none },
      request := some { url := "http://a", ctx := Ctx.batchScope },
      err := none, index := 3 }
    { body := Body.net [7, 8, 9] none, statusCode := 200,
      status := "200 OK", header := [("k", "v")], request := none }
    { url := "http://a", ctx := Ctx.batchScope } [7, 8, 9] rfl rfl rfl rfl

/-- C7: [code bug] at a concrete obtained response whose 5-byte body is
unread, the stop-race cleanup in `fireRequests` (client.go:255) closes the
body without draining it, while the repository's other `fireRequests`
(src/unnamed/part_002:447-449) — and the specification — drain the body to
the end before closing. -/
theorem fireRequests_stop_no_drain :
    (fireStopCleanup { size := 5, pos := 0, closed := false }).closed = true ∧
    (fireStopCleanup { size := 5, pos := 0, closed := false }).drained = false ∧
    (fireStopCleanupDraining { size := 5, pos := 0, closed := false }).drained = true ∧
    (fireStopCleanupDraining { size := 5, pos := 0, closed := false }).closed = true := by
  decide

/-! ## Ledger lemmas -/

theorem getD_set_eq {α : Type} (l : List (Option α)) (i : Nat) (h : i < l.length)
    (v : Option α) : (l.set i v).getD i none = v := by
  simp [List.getD_eq_getElem?_getD, List.getElem?_set, h]

theorem getD_set_ne {α : Type} (l : List (Option α)) (i j : Nat) (h : i ≠ j)
    (v : Option α) : (l.set i v).getD j none = l.getD j none := by
  simp [List.getD_eq_getElem?_getD, List.getElem?_set, h]

theorem getD_none_of_le {α : Type} (l : List (Option α)) (i : Nat)
    (h : l.length ≤ i) : l.getD i none = none := by
  simp [List.getD_eq_getElem?_getD, List.getElem?_eq_none h]

/-- After a `set i none`, slot `i` reads as nil whether or not `i` was in
range. -/
theorem getD_set_none {α : Type} (l : List (Option α)) (i : Nat) :
    (l.set i (none : Option α)).getD i none = none := by
  by_cases h : i < l.length
  · exact getD_set_eq l i h none
  · exact getD_none_of_le _ i (by simpa using Nat.le_of_not_lt h)

/-- The mutual-exclusion invariant of the result ledger: at every index at
most one of the response slot and the error slot is non-nil. -/
def MutexInv (r : RoundTrip) : Prop :=
  ∀ i, r.responses.getD i none = none ∨ r.errors.getD i none = none

theorem updateResponseForIndex_mutex (r : RoundTrip) (v : Option Response)
    (i : Nat) (hr : MutexInv r) : MutexInv (r.updateResponseForIndex v i) := by
  intro j
  by_cases hij : i = j
  · subst hij
    exact Or.inr (getD_set_none r.errors i)
  · show (r.responses.set i v).getD j none = none ∨
      (r.errors.set i none).getD j none = none
    rw [getD_set_ne r.responses i j hij v, getD_set_ne r.errors i j hij none]
    exact hr j

theorem updateErrorForIndex_mutex (r : RoundTrip) (e : Option GoError)
    (i : Nat) (hr : MutexInv r) : MutexInv (r.updateErrorForIndex e i) := by
  intro j
  by_cases hij : i = j
  · subst hij
    exact Or.inl (getD_set_none r.responses i)
  · show (r.responses.set i none).getD j none = none ∨
      (r.errors.set i e).getD j none = none
    rw [getD_set_ne r.responses i j hij none, getD_set_ne r.errors i j hij e]
    exact hr j

theorem applyLedger_foldl_mutex
    (step : RoundTrip → RoundTripParcel → RoundTrip)
    (hstep : ∀ r p, MutexInv r → MutexInv (step r p)) :
    ∀ (ps : List RoundTripParcel) (r : RoundTrip), MutexInv r →
      MutexInv (ps.foldl step r)
  | [], _, hr => hr
  | p :: ps, r, hr => applyLedger_foldl_mutex step hstep ps (step r p) (hstep r p hr)

theorem mergeParcel_mutex (r : RoundTrip) (p : RoundTripParcel)
    (hr : MutexInv r) : MutexInv (mergeParcel r p) := by
  unfold mergeParcel
  split
  · exact updateErrorForIndex_mutex r p.err p.index hr
  · exact updateResponseForIndex_mutex r p.response p.index hr

/-- The write sequences that occur in `completionListener`: one ledger write
per parcel, choosing `updateErrorForIndex` or `updateResponseForIndex`. -/
inductive LedgerOp
  | updResponse (response : Option Response) (index : Nat)
  | updError (err : Option GoError) (index : Nat)

/-- Apply one ledger write. -/
def applyLedgerOp (r : RoundTrip) : LedgerOp → RoundTrip
  | .updResponse resp i => r.updateResponseForIndex resp i
  | .updError e i => r.updateErrorForIndex e i

theorem applyLedgerOp_mutex (r : RoundTrip) (op : LedgerOp) (hr : MutexInv r) :
    MutexInv (applyLedgerOp r op) := by
  cases op with
  | updResponse v i => exact updateResponseForIndex_mutex r v i hr
  | updError e i => exact updateErrorForIndex_mutex r e i hr

theorem foldl_ledgerOp_mutex :
    ∀ (ops : List LedgerOp) (r : RoundTrip), MutexInv r →
      MutexInv (ops.foldl applyLedgerOp r)
  | [], _, hr => hr
  | op :: ops, r, hr =>
    foldl_ledgerOp_mutex ops (applyLedgerOp r op) (applyLedgerOp_mutex r op hr)

/-- C10: `updateResponseForIndex` sets the response slot and nulls the error
slot, `updateErrorForIndex` sets the error slot and nulls the response slot,
and any sequence of these writes preserves the mutual-exclusion invariant:
at most one of `responses[i]`, `errors[i]` is non-nil at every index. -/
theorem ledger_mutual_exclusion (r : RoundTrip) (ops : List LedgerOp)
    (hr : MutexInv r) :
    MutexInv (ops.foldl applyLedgerOp r) ∧
    (∀ (v : Option Response) (i : Nat), i < r.responses.length →
      (r.updateResponseForIndex v i).responses.getD i none = v ∧
      (r.updateResponseForIndex v i).errors.getD i none = none) ∧
    (∀ (e : Option GoError) (i : Nat), i < r.errors.length →
      (r.updateErrorForIndex e i).errors.getD i none = e ∧
      (r.updateErrorForIndex e i).responses.getD i none = none) := by
  refine ⟨foldl_ledgerOp_mutex ops r hr, ?_, ?_⟩
  · intro v i hi
    exact ⟨getD_set_eq r.responses i hi v, getD_set_none r.errors i⟩
  · intro e i hi
    exact ⟨getD_set_eq r.errors i hi e, getD_set_none r.responses i⟩

/-- A concrete in-memory response used by the witnesses. -/
def respW : Response := ⟨Body.mem [1], 200, "200 OK", [], none⟩

/-- A concrete one-slot ledger used by the witnesses. -/
def ledgerW : RoundTrip := ⟨[], [none], [none]⟩

/-- Witness for C10: a concrete overwrite sequence on a one-slot ledger. -/
theorem ledger_mutual_exclusion_witness :
    MutexInv ([LedgerOp.updResponse (some respW) 0,
      LedgerOp.updError (some (GoError.bulk BulkError.requestIgnored)) 0].foldl
        applyLedgerOp ledgerW) ∧
    (ledgerW.updateErrorForIndex (some (GoError.bulk BulkError.requestIgnored)) 0).errors.getD 0 none
      = some (GoError.bulk BulkError.requestIgnored) := by
  have hinv : MutexInv ledgerW := by
    intro i
    cases i with
    | zero => exact Or.inl rfl
    | succ j => exact Or.inl (getD_none_of_le _ _ (by simp [ledgerW]))
  have h := ledger_mutual_exclusion ledgerW
    [LedgerOp.updResponse (some respW) 0,
      LedgerOp.updError (some (GoError.bulk BulkError.requestIgnored)) 0] hinv
  exact ⟨h.1, (h.2.2 (some (GoError.bulk BulkError.requestIgnored)) 0
    (by simp [ledgerW])).1⟩

/-! ## Backfill lemmas -/

theorem backfillIgnored_length :
    ∀ (rs : List (Option Response)) (es : List (Option GoError)),
      es.length = rs.length → (backfillIgnored rs es).length = es.length
  | [], _, _ => rfl
  | _ :: _, [], h => by simp at h
  | _ :: rs, _ :: es, h => by
    simpa [backfillIgnored] using backfillIgnored_length rs es (by simpa using h)

theorem backfillIgnored_getD :
    ∀ (rs : List (Option Response)) (es : List (Option GoError)) (i : Nat),
      es.length = rs.length → i < rs.length →
      ((rs.getD i none = none ∧ es.getD i none = none →
          (backfillIgnored rs es).getD i none =
            some (GoError.bulk BulkError.requestIgnored)) ∧
       (¬(rs.getD i none = none ∧ es.getD i none = none) →
          (backfillIgnored rs es).getD i none = es.getD i none))
  | [], _, i, _, hi => absurd hi (by simp)
  | _ :: _, [], _, h, _ => by simp at h
  | r :: rs, e :: es, 0, _, _ => by
    constructor
    · rintro ⟨hr0, he0⟩
      simp only [List.getD_cons_zero] at hr0 he0
      simp [backfillIgnored, hr0, he0]
    · intro hne
      rcases Decidable.em (r = none) with hr0 | hr0
      · rcases Decidable.em (e = none) with he0 | he0
        · exact absurd ⟨by simpa using hr0, by simpa using he0⟩ hne
        · simp [backfillIgnored, hr0, he0]
      · simp [backfillIgnored, hr0]
  | r :: rs, e :: es, i + 1, h, hi => by
    have ih := backfillIgnored_getD rs es i (by simpa using h) (by simpa using hi)
    simpa [backfillIgnored] using ih

/-- C6: the final backfill writes `ErrRequestIgnored` into every slot where
both the response and the error are still nil, leaves every slot that
already holds a non-nil response or non-nil error unchanged, and afterwards
no slot has a nil response together with a nil error. -/
theorem addRequestIgnoredErrors_spec (r : RoundTrip)
    (hlen : r.errors.length = r.responses.length) :
    r.addRequestIgnoredErrors.responses = r.responses ∧
    r.addRequestIgnoredErrors.errors.length = r.errors.length ∧
    (∀ i, i < r.responses.length →
      ((r.responses.getD i none = none ∧ r.errors.getD i none = none →
          r.addRequestIgnoredErrors.errors.getD i none =
            some (GoError.bulk BulkError.requestIgnored)) ∧
       (¬(r.responses.getD i none = none ∧ r.errors.getD i none = none) →
          r.addRequestIgnoredErrors.errors.getD i none = r.errors.getD i none) ∧
       ¬(r.addRequestIgnoredErrors.responses.getD i none = none ∧
          r.addRequestIgnoredErrors.errors.getD i none = none))) := by
  refine ⟨rfl, backfillIgnored_length r.responses r.errors hlen, ?_⟩
  intro i hi
  have h := backfillIgnored_getD r.responses r.errors i hlen hi
  refine ⟨h.1, h.2, ?_⟩
  rintro ⟨hr0, he0⟩
  have hr0 : r.responses.getD i none = none := hr0
  rcases Decidable.em (r.errors.getD i none = none) with he | he
  · have := h.1 ⟨hr0, he⟩
    rw [show r.addRequestIgnoredErrors.errors = backfillIgnored r.responses r.errors from rfl]
      at he0
    rw [this] at he0
    exact Option.noConfusion he0
  · have := h.2 (fun hc => he hc.2)
    rw [show r.addRequestIgnoredErrors.errors = backfillIgnored r.responses r.errors from rfl]
      at he0
    rw [this] at he0
    exact he he0

/-- Witness for C6 on a concrete two-slot ledger with one empty slot. -/
theorem addRequestIgnoredErrors_spec_witness :
    (⟨[], [none, some respW], [none, none]⟩ :
        RoundTrip).addRequestIgnoredErrors.errors.getD 0 none
      = some (GoError.bulk BulkError.requestIgnored) :=
  ((addRequestIgnoredErrors_spec ⟨[], [none, some respW], [none, none]⟩
    (by simp)).2.2 0 (by simp)).1 ⟨rfl, rfl⟩

/-! ## The merge loop of completionListener -/

theorem foldl_mergeParcel_lengths :
    ∀ (ps : List RoundTripParcel) (r : RoundTrip),
      (ps.foldl mergeParcel r).responses.length = r.responses.length ∧
      (ps.foldl mergeParcel r).errors.length = r.errors.length
  | [], _ => ⟨rfl, rfl⟩
  | p :: ps, r => by
    have ih := foldl_mergeParcel_lengths ps (mergeParcel r p)
    have h1 : (mergeParcel r p).responses.length = r.responses.length := by
      unfold mergeParcel
      split <;>
        simp [RoundTrip.updateErrorForIndex, RoundTrip.updateResponseForIndex]
    have h2 : (mergeParcel r p).errors.length = r.errors.length := by
      unfold mergeParcel
      split <;>
        simp [RoundTrip.updateErrorForIndex, RoundTrip.updateResponseForIndex]
    exact ⟨by simpa [h1] using ih.1, by simpa [h2] using ih.2⟩

theorem replicate_getD_none {α : Type} (n i : Nat) :
    (List.replicate n (none : Option α)).getD i none = none := by
  by_cases h : i < n
  · simp [List.getD_eq_getElem?_getD, List.getElem?_replicate, h]
  · simp [List.getD_eq_getElem?_getD, List.getElem?_replicate, h]

/-- C3: on an empty request list, `Do` returns a nil response slice together
with the single `ErrNoRequests` error, starts no pipeline stages, and leaves
the batch's `responses` and `errors` fields unchanged. -/
theorem Do_empty_batch (rt : RoundTrip) (collected : List RoundTripParcel)
    (h : rt.requests = []) :
    Do rt collected =
      ⟨rt, none, [some (GoError.bulk BulkError.noRequests)], false⟩ := by
  simp [Do, h]

/-- Witness for C3 at the concrete empty batch. -/
theorem Do_empty_batch_witness :
    Do ⟨[], [], []⟩ [] =
      ⟨⟨[], [], []⟩, none, [some (GoError.bulk BulkError.noRequests)], false⟩ :=
  Do_empty_batch ⟨[], [], []⟩ [] rfl

/-- C1: for a batch of `N ≥ 1` requests, `Do` returns a response slice and an
error slice both of length exactly `N`, and at every index exactly one of
the response and the error is non-nil — never both, never neither. -/
theorem Do_result_shape (rt : RoundTrip) (collected : List RoundTripParcel)
    (hN : 1 ≤ rt.requests.length)
    (_hidx : ∀ p ∈ collected, p.index < rt.requests.length) :
    ∃ resps, (Do rt collected).responses = some resps ∧
      resps.length = rt.requests.length ∧
      (Do rt collected).errors.length = rt.requests.length ∧
      (∀ i, i < rt.requests.length →
        ((resps.getD i none).isSome ∧ (Do rt collected).errors.getD i none = none) ∨
        (resps.getD i none = none ∧ ((Do rt collected).errors.getD i none).isSome)) := by
  have hne : ¬(rt.requests.length = 0) := by omega
  have hDo : Do rt collected =
      ⟨completionListener
          ⟨rt.requests.map (fun req => req.withContext Ctx.batchScope),
            List.replicate rt.requests.length none,
            List.replicate rt.requests.length none⟩ collected,
        some (completionListener
          ⟨rt.requests.map (fun req => req.withContext Ctx.batchScope),
            List.replicate rt.requests.length none,
            List.replicate rt.requests.length none⟩ collected).responses,
        (completionListener
          ⟨rt.requests.map (fun req => req.withContext Ctx.batchScope),
            List.replicate rt.requests.length none,
            List.replicate rt.requests.length none⟩ collected).errors, true⟩ := by
    simp only [Do, if_neg hne]
  set rt0 : RoundTrip :=
    ⟨rt.requests.map (fun req => req.withContext Ctx.batchScope),
      List.replicate rt.requests.length none,
      List.replicate rt.requests.length none⟩ with hrt0
  set merged := collected.foldl mergeParcel rt0 with hmerged
  have hlenR : merged.responses.length = rt.requests.length := by
    simpa [hrt0] using (foldl_mergeParcel_lengths collected rt0).1
  have hlenE : merged.errors.length = rt.requests.length := by
    simpa [hrt0] using (foldl_mergeParcel_lengths collected rt0).2
  have hmutex : MutexInv merged := by
    apply applyLedger_foldl_mutex mergeParcel mergeParcel_mutex
    intro i
    exact Or.inl (replicate_getD_none rt.requests.length i)
  have hspec := addRequestIgnoredErrors_spec merged (by rw [hlenR, hlenE])
  have hfinal : completionListener rt0 collected = merged.addRequestIgnoredErrors := rfl
  rw [hDo, hfinal]
  refine ⟨merged.addRequestIgnoredErrors.responses, rfl, ?_, ?_, ?_⟩
  · rw [hspec.1, hlenR]
  · rw [hspec.2.1, hlenE]
  · intro i hi
    have hi2 : i < merged.responses.length := by rw [hlenR]; exact hi
    have hparts := hspec.2.2 i hi2
    rcases Decidable.em (merged.responses.getD i none = none) with hres | hres
    · refine Or.inr ⟨by rw [hspec.1]; exact hres, ?_⟩
      rcases Decidable.em (merged.errors.getD i none = none) with herr | herr
      · rw [hparts.1 ⟨hres, herr⟩]
        rfl
      · rw [hparts.2.1 (fun hc => herr hc.2)]
        exact Option.isSome_iff_ne_none.mpr herr
    · refine Or.inl ⟨?_, ?_⟩
      · rw [hspec.1]
        exact Option.isSome_iff_ne_none.mpr hres
      · have herr : merged.errors.getD i none = none := by
          rcases hmutex i with h | h
          · exact absurd h hres
          · exact h
        rw [hparts.2.1 (fun hc => hres hc.1)]
        exact herr

/-- Witness for C1: a one-request batch whose only collected parcel carries
an adapter error. -/
theorem Do_result_shape_witness :
    ∃ resps, (Do ⟨[⟨"http://a", Ctx.background⟩], [], []⟩
        [⟨none, none, some (GoError.adapter "x"), 0⟩]).responses = some resps ∧
      resps.length = 1 ∧
      (Do ⟨[⟨"http://a", Ctx.background⟩], [], []⟩
        [⟨none, none, some (GoError.adapter "x"), 0⟩]).errors.length = 1 ∧
      (∀ i, i < 1 →
        ((resps.getD i none).isSome ∧
          (Do ⟨[⟨"http://a", Ctx.background⟩], [], []⟩
            [⟨none, none, some (GoError.adapter "x"), 0⟩]).errors.getD i none = none) ∨
        (resps.getD i none = none ∧
          ((Do ⟨[⟨"http://a", Ctx.background⟩], [], []⟩
            [⟨none, none, some (GoError.adapter "x"), 0⟩]).errors.getD i none).isSome)) :=
  Do_result_shape ⟨[⟨"http://a", Ctx.background⟩], [], []⟩
    [⟨none, none, some (GoError.adapter "x"), 0⟩]
    (by decide) (by decide)

/-! ## The completion multiplexer -/

/-- The parcels received by the multiplexer before the first stop event
(deadline expiry or channel close) in the trace. -/
def recvsBeforeStop : List MuxEvent → List RoundTripParcel
  | [] => []
  | MuxEvent.ctxDone :: _ => []
  | MuxEvent.closed :: _ => []
  | MuxEvent.recv p :: rest => p :: recvsBeforeStop rest

theorem muxLoop_done (n d : Nat) (acc : List RoundTripParcel)
    (evs : List MuxEvent) (hd : n ≤ d) : muxLoop n d acc evs = some acc := by
  unfold muxLoop
  rw [if_pos hd]

theorem muxLoop_nil (n d : Nat) (acc : List RoundTripParcel) (hd : ¬n ≤ d) :
    muxLoop n d acc [] = none := by
  unfold muxLoop
  rw [if_neg hd]

theorem muxLoop_ctxDone (n d : Nat) (acc : List RoundTripParcel)
    (rest : List MuxEvent) (hd : ¬n ≤ d) :
    muxLoop n d acc (MuxEvent.ctxDone :: rest) = some acc := by
  unfold muxLoop
  rw [if_neg hd]

theorem muxLoop_closedEv (n d : Nat) (acc : List RoundTripParcel)
    (rest : List MuxEvent) (hd : ¬n ≤ d) :
    muxLoop n d acc (MuxEvent.closed :: rest) = some acc := by
  unfold muxLoop
  rw [if_neg hd]

theorem muxLoop_recv (n d : Nat) (acc : List RoundTripParcel)
    (p : RoundTripParcel) (rest : List MuxEvent) (hd : ¬n ≤ d) :
    muxLoop n d acc (MuxEvent.recv p :: rest) =
      muxLoop n (d + 1) (acc ++ [p]) rest := by
  conv_lhs => unfold muxLoop
  rw [if_neg hd]

theorem muxLoop_char (n : Nat) :
    ∀ (evs : List MuxEvent) (d : Nat) (acc : List RoundTripParcel),
      MuxEvent.closed ∉ evs →
      muxLoop n d acc evs =
        if n ≤ d + (recvsBeforeStop evs).length then
          some (acc ++ (recvsBeforeStop evs).take (n - d))
        else if MuxEvent.ctxDone ∈ evs then some (acc ++ recvsBeforeStop evs)
        else none := by
  intro evs
  induction evs with
  | nil =>
    intro d acc _
    by_cases hd : n ≤ d
    · have hsub : n - d = 0 := by omega
      rw [muxLoop_done n d acc [] hd]
      simp [recvsBeforeStop, hd, hsub]
    · rw [muxLoop_nil n d acc hd]
      simp [recvsBeforeStop, hd]
  | cons e rest ih =>
    intro d acc hnc
    cases e with
    | closed => simp at hnc
    | ctxDone =>
      by_cases hd : n ≤ d
      · have hsub : n - d = 0 := by omega
        rw [muxLoop_done n d acc _ hd]
        simp [recvsBeforeStop, hd, hsub]
      · rw [muxLoop_ctxDone n d acc rest hd]
        simp [recvsBeforeStop, hd]
    | recv p =>
      have hnc2 : MuxEvent.closed ∉ rest := fun hmem => hnc (List.mem_cons_of_mem _ hmem)
      by_cases hd : n ≤ d
      · have hle : n ≤ d + ((recvsBeforeStop rest).length + 1) := by omega
        have hsub : n - d = 0 := by omega
        rw [muxLoop_done n d acc _ hd]
        simp [recvsBeforeStop, hle, hsub]
      · rw [muxLoop_recv n d acc p rest hd, ih (d + 1) (acc ++ [p]) hnc2]
        simp only [recvsBeforeStop, List.length_cons]
        by_cases hle : n ≤ d + 1 + (recvsBeforeStop rest).length
        · have hle2 : n ≤ d + ((recvsBeforeStop rest).length + 1) := by omega
          have hsub : n - d = (n - (d + 1)) + 1 := by omega
          rw [if_pos hle, if_pos hle2, hsub]
          simp [List.take_succ_cons]
        · have hle2 : ¬(n ≤ d + ((recvsBeforeStop rest).length + 1)) := by omega
          rw [if_neg hle, if_neg hle2]
          have hmem : (MuxEvent.ctxDone ∈ MuxEvent.recv p :: rest) ↔
              (MuxEvent.ctxDone ∈ rest) := by simp
          rw [if_congr hmem rfl rfl]
          split
          · simp
          · rfl

theorem muxLoop_append :
    ∀ (pre : List MuxEvent) (n d : Nat) (acc out : List RoundTripParcel),
      muxLoop n d acc pre = some out →
      ∀ post, muxLoop n d acc (pre ++ post) = some out
  | [], n, d, acc, out, h, post => by
    by_cases hd : n ≤ d
    · rw [muxLoop_done n d acc [] hd] at h
      rw [List.nil_append, muxLoop_done n d acc post hd]
      exact h
    · rw [muxLoop_nil n d acc hd] at h
      exact absurd h (by simp)
  | MuxEvent.ctxDone :: rest, n, d, acc, out, h, post => by
    by_cases hd : n ≤ d
    · rw [muxLoop_done n d acc _ hd] at h
      rw [List.cons_append, muxLoop_done n d acc _ hd]
      exact h
    · rw [muxLoop_ctxDone n d acc rest hd] at h
      rw [List.cons_append, muxLoop_ctxDone n d acc _ hd]
      exact h
  | MuxEvent.closed :: rest, n, d, acc, out, h, post => by
    by_cases hd : n ≤ d
    · rw [muxLoop_done n d acc _ hd] at h
      rw [List.cons_append, muxLoop_done n d acc _ hd]
      exact h
    · rw [muxLoop_closedEv n d acc rest hd] at h
      rw [List.cons_append, muxLoop_closedEv n d acc _ hd]
      exact h
  | MuxEvent.recv p :: rest, n, d, acc, out, h, post => by
    by_cases hd : n ≤ d
    · rw [muxLoop_done n d acc _ hd] at h
      rw [List.cons_append, muxLoop_done n d acc _ hd]
      exact h
    · rw [muxLoop_recv n d acc p rest hd] at h
      rw [List.cons_append, muxLoop_recv n d acc p _ hd]
      exact muxLoop_append rest n (d + 1) (acc ++ [p]) out h post

/-- C8: the multiplexer accumulates parcels until either the accumulated
count reaches the number of requests or the deadline scope ends, whichever
happens first, then delivers the accumulated (possibly partial) list exactly
once; events after the stopping point never change the delivered list. -/
theorem responseMux_spec (rt : RoundTrip) (evs : List MuxEvent)
    (hnc : MuxEvent.closed ∉ evs) :
    (responseMux rt evs =
      if rt.requests.length ≤ (recvsBeforeStop evs).length then
        some ((recvsBeforeStop evs).take rt.requests.length)
      else if MuxEvent.ctxDone ∈ evs then some (recvsBeforeStop evs)
      else none) ∧
    (∀ (pre post : List MuxEvent) (out : List RoundTripParcel),
      responseMux rt pre = some out → responseMux rt (pre ++ post) = some out) := by
  constructor
  · have h := muxLoop_char rt.requests.length evs 0 [] hnc
    simpa [responseMux] using h
  · intro pre post out h
    exact muxLoop_append pre rt.requests.length 0 [] out h post

/-- Witness for C8: a two-request batch whose trace delivers one parcel and
then hits the deadline. -/
theorem responseMux_spec_witness :
    responseMux ⟨[⟨"a", Ctx.background⟩, ⟨"b", Ctx.background⟩], [], []⟩
        [MuxEvent.recv ⟨none, none, some (GoError.adapter "x"), 0⟩, MuxEvent.ctxDone]
      = some [⟨none, none, some (GoError.adapter "x"), 0⟩] := by
  have h := (responseMux_spec ⟨[⟨"a", Ctx.background⟩, ⟨"b", Ctx.background⟩], [], []⟩
      [MuxEvent.recv ⟨none, none, some (GoError.adapter "x"), 0⟩, MuxEvent.ctxDone]
      (by decide)).1
  simpa [recvsBeforeStop] using h

/-! ## The publisher -/

/-- The full publication: one parcel per request, in input order, each
carrying its position in the original request sequence. -/
def allParcels (reqs : List Request) : List RequestParcel :=
  (List.enumFrom 0 reqs).map (fun p => RequestParcel.mk p.2 p.1)

theorem publishFrom_all (sched : Nat → Bool) (hall : ∀ k, sched k = true) :
    ∀ (reqs : List Request) (i : Nat),
      publishFrom sched reqs i =
        (List.enumFrom i reqs).map (fun p => RequestParcel.mk p.2 p.1)
  | [], _ => rfl
  | req :: rest, i => by
    simp [publishFrom, hall i, List.enumFrom, publishFrom_all sched hall rest (i + 1)]

theorem publishFrom_stop (sched : Nat → Bool) :
    ∀ (reqs : List Request) (i j : Nat),
      (∀ k, k < j → sched (i + k) = true) → sched (i + j) = false →
      publishFrom sched reqs i =
        ((List.enumFrom i reqs).map (fun p => RequestParcel.mk p.2 p.1)).take j
  | [], _, _, _, _ => by simp [publishFrom]
  | req :: rest, i, 0, _, hstop => by
    have h0 : sched i = false := by simpa using hstop
    simp [publishFrom, h0]
  | req :: rest, i, j + 1, hbelow, hstop => by
    have h0 : sched i = true := by simpa using hbelow 0 (Nat.succ_pos j)
    have hbelow2 : ∀ k, k < j → sched (i + 1 + k) = true := by
      intro k hk
      have := hbelow (k + 1) (by omega)
      simpa [Nat.add_assoc, Nat.add_comm 1 k] using this
    have hstop2 : sched (i + 1 + j) = false := by
      have : i + 1 + j = i + (j + 1) := by omega
      rw [this]
      exact hstop
    simp [publishFrom, h0, List.enumFrom, List.take_succ_cons,
      publishFrom_stop sched rest (i + 1) j hbelow2 hstop2]

/-- C9: the publisher pushes one parcel per request, in the order of the
original request sequence with each parcel's index equal to its position;
and when the stop signal wins the race on the push of request `j`, it stops
immediately, having published exactly the first `j` parcels and none of the
remaining ones. -/
theorem publishAllRequests_spec (r : RoundTrip) (sched : Nat → Bool) :
    (∀ k, (allParcels r.requests)[k]? =
      (r.requests[k]?).map (fun rq => RequestParcel.mk rq k)) ∧
    ((∀ i, sched i = true) → publishAllRequests r sched = allParcels r.requests) ∧
    (∀ j, (∀ k, k < j → sched k = true) → sched j = false →
      publishAllRequests r sched = (allParcels r.requests).take j) := by
  refine ⟨?_, ?_, ?_⟩
  · intro k
    simp only [allParcels, List.getElem?_map, List.getElem?_enumFrom, Option.map_map,
      Nat.zero_add]
    rfl
  · intro hall
    exact publishFrom_all sched hall r.requests 0
  · intro j hbelow hstop
    exact publishFrom_stop sched r.requests 0 j (by simpa using hbelow) (by simpa using hstop)

/-- Witness for C9: two requests published under a schedule that lets the
first push through and stops on the second. -/
theorem publishAllRequests_spec_witness :
    publishAllRequests ⟨[⟨"a", Ctx.batchScope⟩, ⟨"b", Ctx.batchScope⟩], [], []⟩
        (fun i => decide (i < 1))
      = (allParcels [⟨"a", Ctx.batchScope⟩, ⟨"b", Ctx.batchScope⟩]).take 1 :=
  (publishAllRequests_spec ⟨[⟨"a", Ctx.batchScope⟩, ⟨"b", Ctx.batchScope⟩], [], []⟩
    (fun i => decide (i < 1))).2.2 1 (by decide) (by decide)

end Meniscus
